import Mathlib

/-!
Verification of the lightyear networking core against its source.

The development shallowly embeds the Rust code of the repository:

* `shared/src/channel/senders/reliable.rs` : the `ReliableSender` channel
  sender (reliable delivery with RTT-based resends).
* `server/src/server.rs` : the `Server` multiplexer (per-peer connections,
  packet routing, replication fan-out).
* `lightyear/src/client/networking.rs` : the unified-mode sync systems.

Modelling conventions:

* `Instant` and `Duration` are nanosecond counts (`Nat`); Rust subtraction
  of instants is truncated subtraction.
* `f32` fields (`rtt_resend_factor`, `current_rtt_millis`) are modelled as
  exact rationals; the cast `as u64` is floor with saturation at zero.
* `BTreeMap` is a key-sorted association list; `HashMap` an association
  list; `HashSet` a `Finset`.  `VecDeque` is a list, `push_back` appends.
* Rust panics are modelled by `Option` (`none` = panic); a fallible call
  returning `anyhow::Result` is modelled by a paired `Option String` error.
* Calls into components whose code is outside the given sources
  (`PacketManager`, `MessageManager`, `ReplicationManager`) are modelled
  as parameters or from the specification, as noted on each definition.
-/

/-- Association-list lookup, first match wins (models `HashMap::get` /
`BTreeMap::get`). -/
def lookupA {α : Type} (k : ℕ) : List (ℕ × α) → Option α
  | [] => none
  | (k2, v) :: rest => if k2 = k then some v else lookupA k rest

/-- Association-list value update at a key (models `HashMap::get_mut`
followed by a mutation of the value). -/
def updateA {α : Type} (k : ℕ) (f : α → α) (l : List (ℕ × α)) : List (ℕ × α) :=
  l.map (fun p => if p.1 = k then (p.1, f p.2) else p)

/-- Sorted insert replacing an existing key (models `BTreeMap::insert`). -/
def insertSorted {α : Type} (k : ℕ) (v : α) : List (ℕ × α) → List (ℕ × α)
  | [] => [(k, v)]
  | (k2, v2) :: rest =>
    if k < k2 then (k, v) :: (k2, v2) :: rest
    else if k = k2 then (k, v) :: rest
    else (k2, v2) :: insertSorted k v rest

/-- Key removal (models `BTreeMap::remove`). -/
def eraseKey {α : Type} (k : ℕ) (l : List (ℕ × α)) : List (ℕ × α) :=
  l.filter (fun p => p.1 ≠ k)

/-- Key membership (models `BTreeMap::contains_key`). -/
def containsKey {α : Type} (k : ℕ) (l : List (ℕ × α)) : Bool :=
  l.any (fun p => p.1 == k)

/-- `MessageContainer<P>` from `packet/message.rs`: a payload together with
an optional `MessageId` (set only for reliable messages). -/
structure MessageContainer (P : Type) where
  id : Option ℕ
  payload : P
deriving DecidableEq, Repr

/-- `UnackedMessage<P>` from `reliable.rs`: a message that has not been
acked yet; `last_sent = none` means it has never been sent. -/
structure UnackedMessage (P : Type) where
  message : MessageContainer P
  last_sent : Option ℕ
deriving DecidableEq, Repr

/-- `ReliableSettings` from `channel/channel.rs` (only the field used by
`reliable.rs`). -/
structure ReliableSettings where
  rtt_resend_factor : ℚ
deriving DecidableEq, Repr

/-- `ReliableSender<P>` from `reliable.rs`. -/
structure ReliableSender (P : Type) where
  reliable_settings : ReliableSettings
  /-- ordered map of the messages that have not been acked yet -/
  unacked_messages : List (ℕ × UnackedMessage P)
  /-- message id to use for the next message to be sent (wraps at 2^16) -/
  next_send_message_id : ℕ
  /-- list of messages that we want to fit into packets and send -/
  messages_to_send : List (MessageContainer P)
  /-- set of message ids that we want to send -/
  message_ids_to_send : Finset ℕ
  current_rtt_millis : ℚ
  current_time : ℕ
deriving DecidableEq

namespace ReliableSender

/-- `ReliableSender::new`. -/
def new (P : Type) (settings : ReliableSettings) (now : ℕ) : ReliableSender P :=
  { reliable_settings := settings
    unacked_messages := []
    next_send_message_id := 0
    messages_to_send := []
    message_ids_to_send := ∅
    current_rtt_millis := 0
    current_time := now }

/-- The resend delay of `collect_messages_to_send`, in nanoseconds:
`Duration::from_millis((rtt_resend_factor * current_rtt_millis) as u64)`.
The `as u64` cast truncates toward zero and saturates at zero. -/
def resendDelay {P : Type} (s : ReliableSender P) : ℕ :=
  1000000 * Int.toNat ⌊s.reliable_settings.rtt_resend_factor * s.current_rtt_millis⌋

/-- The `should_send` test inside `collect_messages_to_send`: send if the
message has never been sent, or if it was sent a while back without ack. -/
def shouldSend {P : Type} (now delay : ℕ) (u : UnackedMessage P) : Bool :=
  match u.last_sent with
  | none => true
  | some t => decide (now - t > delay)

/-- `ReliableSender::buffer_send`: store the message as unacked under the
next send id and increment the (wrapping 16-bit) id. -/
def buffer_send {P : Type} (s : ReliableSender P) (m : MessageContainer P) :
    ReliableSender P :=
  { s with
    unacked_messages :=
      insertSorted s.next_send_message_id ⟨m, none⟩ s.unacked_messages
    next_send_message_id := (s.next_send_message_id + 1) % 65536 }

/-- The loop body of `collect_messages_to_send`, iterating over the entries
of `unacked_messages` in key order while threading the dedup id set.
Returns the updated entries, the newly enqueued messages (in order), and
the updated id set. -/
def collectGo {P : Type} (now delay : ℕ) :
    List (ℕ × UnackedMessage P) → Finset ℕ →
    List (ℕ × UnackedMessage P) × List (MessageContainer P) × Finset ℕ
  | [], ids => ([], [], ids)
  | (mid, u) :: rest, ids =>
    if shouldSend now delay u then
      if mid ∈ ids then
        ((mid, { u with message := { u.message with id := some mid } }) ::
            (collectGo now delay rest ids).1,
         (collectGo now delay rest ids).2.1,
         (collectGo now delay rest ids).2.2)
      else
        ((mid, { message := { u.message with id := some mid },
                 last_sent := some now }) ::
            (collectGo now delay rest (insert mid ids)).1,
         { u.message with id := some mid } ::
            (collectGo now delay rest (insert mid ids)).2.1,
         (collectGo now delay rest (insert mid ids)).2.2)
    else
      ((mid, u) :: (collectGo now delay rest ids).1,
       (collectGo now delay rest ids).2.1,
       (collectGo now delay rest ids).2.2)

/-- `ReliableSender::collect_messages_to_send`. -/
def collect_messages_to_send {P : Type} (s : ReliableSender P) :
    ReliableSender P :=
  { s with
    unacked_messages :=
      (collectGo s.current_time s.resendDelay s.unacked_messages
        s.message_ids_to_send).1
    messages_to_send :=
      s.messages_to_send ++
        (collectGo s.current_time s.resendDelay s.unacked_messages
          s.message_ids_to_send).2.1
    message_ids_to_send :=
      (collectGo s.current_time s.resendDelay s.unacked_messages
        s.message_ids_to_send).2.2 }

/-- `ReliableSender::send_packet`.  `PacketManager` is outside the given
sources, so `pack_messages_within_channel` is a parameter: it consumes the
queue and returns the unplaced messages and the packed message ids. -/
def send_packet {P : Type}
    (pack : List (MessageContainer P) → List (MessageContainer P) × List ℕ)
    (s : ReliableSender P) : ReliableSender P :=
  { s with
    messages_to_send := (pack s.messages_to_send).1
    message_ids_to_send :=
      (pack s.messages_to_send).2.foldl Finset.erase s.message_ids_to_send }

/-- `ReliableSender::notify_message_delivered`. -/
def notify_message_delivered {P : Type} (s : ReliableSender P) (mid : ℕ) :
    ReliableSender P :=
  { s with unacked_messages := eraseKey mid s.unacked_messages }

/-- `ReliableSender::process_message_ack`. -/
def process_message_ack {P : Type} (s : ReliableSender P) (mid : ℕ) :
    ReliableSender P :=
  if containsKey mid s.unacked_messages then
    { s with unacked_messages := eraseKey mid s.unacked_messages }
  else s

/-- `ReliableSender::has_messages_to_send`. -/
def has_messages_to_send {P : Type} (s : ReliableSender P) : Bool :=
  !s.messages_to_send.isEmpty

end ReliableSender

/-!
Embedding of `server/src/server.rs`.  Client ids, entities, datagrams,
channel kinds and messages are opaque and modelled as natural numbers.
The per-peer `Connection` aggregates a message manager and a replication
manager whose code is outside the given sources; only the state its
operations touch is modelled, following the specification.
-/

/-- Per-peer connection state.  `bufferedSpawns` is the replication
manager spawn buffer, `receivedPackets` the message manager inbox of raw
datagrams, `readable` the deliverable messages per channel kind. -/
structure Connection where
  bufferedSpawns : List ℕ
  receivedPackets : List ℕ
  readable : List (ℕ × List ℕ)
deriving DecidableEq, Repr

namespace Connection

/-- Modelled from the spec: `message_manager.recv_packet(bytes)` buffers
the datagram into the connection (parsing and routing to channel
receivers happen inside the message manager, outside the given sources). -/
def recvPacket (pkt : ℕ) (c : Connection) : Connection :=
  { c with receivedPackets := c.receivedPackets ++ [pkt] }

/-- Modelled from the spec: `message_manager.read_messages()` drains the
deliverable messages from each receiver. -/
def readMessages (c : Connection) : List (ℕ × List ℕ) × Connection :=
  (c.readable, { c with readable := [] })

/-- Modelled from the spec: `replication_manager.buffer_spawn_entity`
enqueues a spawn message for the entity into this connection. -/
def bufferSpawnEntity (e : ℕ) (c : Connection) : Connection :=
  { c with bufferedSpawns := c.bufferedSpawns ++ [e] }

end Connection

/-- `ReplicationTarget` from `lightyear_shared::replication`. -/
inductive ReplicationTarget where
  | All : ReplicationTarget
  | AllExcept : ℕ → ReplicationTarget
  | Only : ℕ → ReplicationTarget
deriving DecidableEq, Repr

/-- `Server<P>` from `server.rs`.  `netcodeClientIds` is what
`netcode.client_ids()` yields; `recvQueue` the datagrams that successive
`netcode.recv()` calls will pop, each paired with its source client id. -/
structure Server where
  netcodeClientIds : List ℕ
  user_connections : List (ℕ × Connection)
  recvQueue : List (ℕ × ℕ)
deriving DecidableEq, Repr

namespace Server

/-- The loop of `Server::recv_packets`: pop datagrams in order and route
each to the connection keyed by its source id; an unknown source makes the
whole call return the error `client not found` (via `context(..)?`),
leaving the remaining datagrams unpopped. -/
def recvPacketsGo : List (ℕ × ℕ) → List (ℕ × Connection) →
    List (ℕ × ℕ) × List (ℕ × Connection) × Option String
  | [], conns => ([], conns, none)
  | (pkt, cid) :: rest, conns =>
    match lookupA cid conns with
    | none => (rest, conns, some "client not found")
    | some _ => recvPacketsGo rest (updateA cid (Connection.recvPacket pkt) conns)

/-- `Server::recv_packets`.  Returns the updated server and the error of
the `anyhow::Result`, if any. -/
def recv_packets (s : Server) : Server × Option String :=
  ({ s with
      recvQueue := (recvPacketsGo s.recvQueue s.user_connections).1
      user_connections := (recvPacketsGo s.recvQueue s.user_connections).2.1 },
   (recvPacketsGo s.recvQueue s.user_connections).2.2)

/-- `Server::read_messages`: read from the connection of the client if it
exists, otherwise return an empty map. -/
def read_messages (s : Server) (cid : ℕ) : List (ℕ × List ℕ) × Server :=
  match lookupA cid s.user_connections with
  | some c =>
    (c.readMessages.1,
     { s with
        user_connections :=
          updateA cid (fun c2 => c2.readMessages.2) s.user_connections })
  | none => ([], s)

/-- The ids `Server::entity_spawn` iterates over for a replication target
(`self.client_ids()` collected, filtered for `AllExcept`). -/
def targetIds (s : Server) : ReplicationTarget → List ℕ
  | .All => s.netcodeClientIds
  | .AllExcept c => s.netcodeClientIds.filter (fun i => i ≠ c)
  | .Only c => [c]

/-- The loop of `Server::entity_spawn`: buffer the spawn into the
connection of every target id; `expect("client not found")` on a missing
id is a panic, modelled as `none`. -/
def entitySpawnGo (e : ℕ) : List ℕ → List (ℕ × Connection) →
    Option (List (ℕ × Connection))
  | [], conns => some conns
  | cid :: rest, conns =>
    match lookupA cid conns with
    | none => none
    | some _ =>
      entitySpawnGo e rest (updateA cid (Connection.bufferSpawnEntity e) conns)

/-- `Server::entity_spawn` (`none` models the `expect` panic). -/
def entity_spawn (s : Server) (e : ℕ) (t : ReplicationTarget) :
    Option Server :=
  (entitySpawnGo e (s.targetIds t) s.user_connections).map
    (fun conns => { s with user_connections := conns })

end Server

/-!
Embedding of the unified-mode sync systems of
`lightyear/src/client/networking.rs`.  Only the `SyncManager` fields the
systems touch are modelled; times and durations are integers
(chrono-style signed durations).  The current time, the interpolation
delay and the per-tick delta of the `TimeManager` are parameters.
-/

/-- The sync-manager state mutated by `unified_sync_init` and
`unified_sync_update`. -/
structure SyncManager where
  synced : Bool
  interpolation_time : ℤ
  duration_since_latest_received_server_tick : ℤ
deriving DecidableEq, Repr

/-- `unified_sync_init`: mark the client synced and set the interpolation
time directly from the shared current time minus the interpolation delay. -/
def unified_sync_init (current_time interpolation_delay : ℤ)
    (sm : SyncManager) : SyncManager :=
  { sm with
    synced := true
    interpolation_time := current_time - interpolation_delay }

/-- `unified_sync_update`: advance both clocks by the time manager delta. -/
def unified_sync_update (delta : ℤ) (sm : SyncManager) : SyncManager :=
  { sm with
    duration_since_latest_received_server_tick :=
      sm.duration_since_latest_received_server_tick + delta
    interpolation_time := sm.interpolation_time + delta }

/-!  Lemmas about the association-list primitives.  -/

theorem lookupA_cons {α : Type} (k k1 : ℕ) (v1 : α) (rest : List (ℕ × α)) :
    lookupA k ((k1, v1) :: rest) =
      if k1 = k then some v1 else lookupA k rest := rfl

theorem updateA_cons {α : Type} (k k1 : ℕ) (f : α → α) (v1 : α)
    (rest : List (ℕ × α)) :
    updateA k f ((k1, v1) :: rest) =
      (if k1 = k then (k1, f v1) else (k1, v1)) :: updateA k f rest := by
  by_cases h : k1 = k <;> simp [updateA, h]

theorem lookupA_updateA_self {α : Type} (k : ℕ) (f : α → α) (l : List (ℕ × α)) :
    lookupA k (updateA k f l) = (lookupA k l).map f := by
  induction l with
  | nil => rfl
  | cons p rest ih =>
    rcases p with ⟨k1, v1⟩
    rw [updateA_cons, lookupA_cons]
    by_cases h : k1 = k
    · rw [if_pos h, if_pos h, lookupA_cons, if_pos h]; rfl
    · rw [if_neg h, if_neg h, lookupA_cons, if_neg h, ih]

theorem lookupA_updateA_ne {α : Type} (k k2 : ℕ) (f : α → α)
    (l : List (ℕ × α)) (h : k2 ≠ k) :
    lookupA k2 (updateA k f l) = lookupA k2 l := by
  induction l with
  | nil => rfl
  | cons p rest ih =>
    rcases p with ⟨k1, v1⟩
    rw [updateA_cons, lookupA_cons]
    by_cases hp : k1 = k
    · have hne : k1 ≠ k2 := fun hh => h (hp ▸ hh).symm
      rw [if_pos hp, lookupA_cons, if_neg hne, if_neg hne, ih]
    · rw [if_neg hp, lookupA_cons]
      by_cases hp2 : k1 = k2
      · rw [if_pos hp2, if_pos hp2]
      · rw [if_neg hp2, if_neg hp2, ih]

theorem lookupA_updateA_isSome {α : Type} (k k2 : ℕ) (f : α → α)
    (l : List (ℕ × α)) :
    (lookupA k2 (updateA k f l)).isSome = (lookupA k2 l).isSome := by
  by_cases h : k2 = k
  · subst h; rw [lookupA_updateA_self]; cases lookupA k2 l <;> rfl
  · rw [lookupA_updateA_ne k k2 f l h]

theorem lookupA_eraseKey_self {α : Type} (k : ℕ) (l : List (ℕ × α)) :
    lookupA k (eraseKey k l) = none := by
  induction l with
  | nil => rfl
  | cons p rest ih =>
    by_cases h : p.1 = k
    · simpa [eraseKey, h] using ih
    · simpa [eraseKey, lookupA, h] using ih

theorem eraseKey_idem {α : Type} (k : ℕ) (l : List (ℕ × α)) :
    eraseKey k (eraseKey k l) = eraseKey k l := by
  simp [eraseKey, List.filter_filter]

theorem containsKey_isSome {α : Type} (k : ℕ) (l : List (ℕ × α)) :
    containsKey k l = (lookupA k l).isSome := by
  induction l with
  | nil => rfl
  | cons p rest ih =>
    by_cases h : p.1 = k
    · simp [containsKey, lookupA, h]
    · simp [containsKey, lookupA, h, ← ih]

theorem containsKey_eraseKey_self {α : Type} (k : ℕ) (l : List (ℕ × α)) :
    containsKey k (eraseKey k l) = false := by
  rw [containsKey_isSome, lookupA_eraseKey_self]; rfl

theorem lookupA_insertSorted_self {α : Type} (k : ℕ) (v : α)
    (l : List (ℕ × α)) : lookupA k (insertSorted k v l) = some v := by
  induction l with
  | nil => simp [insertSorted, lookupA]
  | cons p rest ih =>
    rcases p with ⟨k2, v2⟩
    by_cases h1 : k < k2
    · simp [insertSorted, h1, lookupA]
    · by_cases h2 : k = k2
      · simp [insertSorted, h1, h2, lookupA]
      · have hne : k2 ≠ k := fun hh => h2 hh.symm
        simp [insertSorted, h1, h2, lookupA, hne, ih]

/-!  Characterization of one `collect_messages_to_send` pass.  -/

namespace ReliableSender

/-- The entrywise effect of one collect pass on an `unacked_messages`
entry, relative to the dedup set at the start of the pass (valid when the
map keys are distinct). -/
def transformVal {P : Type} (now delay : ℕ) (ids : Finset ℕ)
    (p : ℕ × UnackedMessage P) : UnackedMessage P :=
  if shouldSend now delay p.2 then
    if p.1 ∈ ids then
      { p.2 with message := { p.2.message with id := some p.1 } }
    else
      { message := { p.2.message with id := some p.1 }, last_sent := some now }
  else p.2

/-- The entries a collect pass enqueues: those that should be sent and
whose id is not in the dedup set yet. -/
def pushedEntries {P : Type} (now delay : ℕ) (ids : Finset ℕ)
    (l : List (ℕ × UnackedMessage P)) : List (ℕ × UnackedMessage P) :=
  l.filter (fun p => shouldSend now delay p.2 && decide (p.1 ∉ ids))

theorem collectGo_eq {P : Type} (now delay : ℕ)
    (l : List (ℕ × UnackedMessage P)) (ids : Finset ℕ)
    (h : (l.map Prod.fst).Nodup) :
    collectGo now delay l ids =
      (l.map (fun p => (p.1, transformVal now delay ids p)),
       (pushedEntries now delay ids l).map
         (fun p => { p.2.message with id := some p.1 }),
       ids ∪ ((pushedEntries now delay ids l).map Prod.fst).toFinset) := by
  induction l generalizing ids with
  | nil => simp [collectGo, pushedEntries]
  | cons p rest ih =>
    rcases p with ⟨mid, u⟩
    simp only [List.map_cons, List.nodup_cons] at h
    obtain ⟨hmid, hrest⟩ := h
    by_cases hs : shouldSend now delay u = true
    · by_cases hm : mid ∈ ids
      · have hpe : pushedEntries now delay ids ((mid, u) :: rest) =
            pushedEntries now delay ids rest := by
          simp [pushedEntries, List.filter_cons, hm]
        simp only [collectGo, if_pos hs, if_pos hm]
        rw [ih ids hrest]
        simp [hpe, transformVal, hs, hm]
      · have hpe : pushedEntries now delay ids ((mid, u) :: rest) =
            (mid, u) :: pushedEntries now delay ids rest := by
          simp [pushedEntries, List.filter_cons, hs, hm]
        have hne : ∀ q ∈ rest, q.1 ≠ mid := by
          intro q hq he
          exact hmid (he ▸ List.mem_map_of_mem Prod.fst hq)
        have hc1 : rest.map
              (fun p => (p.1, transformVal now delay (insert mid ids) p)) =
            rest.map (fun p => (p.1, transformVal now delay ids p)) := by
          apply List.map_congr_left
          intro q hq
          have hq1 : q.1 ≠ mid := hne q hq
          simp [transformVal, Finset.mem_insert, hq1]
        have hc2 : pushedEntries now delay (insert mid ids) rest =
            pushedEntries now delay ids rest := by
          apply List.filter_congr
          intro q hq
          have hq1 : q.1 ≠ mid := hne q hq
          simp [Finset.mem_insert, hq1]
        simp only [collectGo, if_pos hs, if_neg hm]
        rw [ih (insert mid ids) hrest]
        simp only [Prod.mk.injEq]
        refine ⟨?_, ?_, ?_⟩
        · rw [hc1]
          simp [transformVal, hs, hm]
        · rw [hc2, hpe]
          simp
        · rw [hc2, hpe]
          ext a
          simp [Finset.mem_insert, Finset.mem_union]
    · have hpe : pushedEntries now delay ids ((mid, u) :: rest) =
          pushedEntries now delay ids rest := by
        simp [pushedEntries, List.filter_cons, hs]
      simp only [collectGo, if_neg hs]
      rw [ih ids hrest]
      simp [hpe, transformVal, hs]

end ReliableSender

/-!  Lookup lemmas under distinct keys.  -/

theorem nodupKeys_val_eq {α : Type} {l : List (ℕ × α)} {k : ℕ} {a b : α}
    (h : (l.map Prod.fst).Nodup) (ha : (k, a) ∈ l) (hb : (k, b) ∈ l) :
    a = b := by
  induction l with
  | nil => cases ha
  | cons p rest ih =>
    simp only [List.map_cons, List.nodup_cons] at h
    obtain ⟨hp, hrest⟩ := h
    rcases List.mem_cons.mp ha with ha1 | ha1
    · rcases List.mem_cons.mp hb with hb1 | hb1
      · rw [← ha1] at hb1
        exact (((Prod.mk.injEq _ _ _ _).mp hb1).2).symm
      · exfalso
        apply hp
        have : (k, b) ∈ rest := hb1
        have hk : p.1 = k := congrArg Prod.fst ha1.symm
        rw [hk]
        exact List.mem_map_of_mem Prod.fst this
    · rcases List.mem_cons.mp hb with hb1 | hb1
      · exfalso
        apply hp
        have hk : p.1 = k := congrArg Prod.fst hb1.symm
        rw [hk]
        exact List.mem_map_of_mem Prod.fst ha1
      · exact ih hrest ha1 hb1

theorem lookupA_map_entry {α β : Type} {l : List (ℕ × α)} {k : ℕ} {v : α}
    (g : ℕ × α → β) (h : (l.map Prod.fst).Nodup) (hv : (k, v) ∈ l) :
    lookupA k (l.map (fun p => (p.1, g p))) = some (g (k, v)) := by
  induction l with
  | nil => cases hv
  | cons p rest ih =>
    rcases p with ⟨k1, v1⟩
    simp only [List.map_cons, List.nodup_cons] at h
    obtain ⟨hp, hrest⟩ := h
    simp only [List.map_cons, lookupA_cons]
    rcases List.mem_cons.mp hv with hv1 | hv1
    · have hk : k1 = k := congrArg Prod.fst hv1.symm
      have hvv : v1 = v := congrArg Prod.snd hv1.symm
      rw [if_pos hk, hk, hvv]
    · by_cases hk : k1 = k
      · exfalso
        apply hp
        rw [hk]
        exact List.mem_map_of_mem Prod.fst hv1
      · rw [if_neg hk]
        exact ih hrest hv1

theorem lookupA_self_of_mem {α : Type} {l : List (ℕ × α)} {k : ℕ} {v : α}
    (h : (l.map Prod.fst).Nodup) (hv : (k, v) ∈ l) :
    lookupA k l = some v := by
  have := lookupA_map_entry (fun p => p.2) h hv
  simpa using this

/-- The messages a single `collect_messages_to_send` pass appends to
`messages_to_send` (derived from `collectGo_eq`): the entries that pass
the resend test and are not in the dedup set, with their id stamped. -/
def ReliableSender.newlyEnqueued (s : ReliableSender ℕ) :
    List (MessageContainer ℕ) :=
  (ReliableSender.pushedEntries s.current_time s.resendDelay
      s.message_ids_to_send s.unacked_messages).map
    (fun p => { p.2.message with id := some p.1 })

/-- Claim C3: in a `collect_messages_to_send` pass, an `unacked_messages`
entry is marked for sending exactly when its `last_sent` is `None` or the
elapsed time since `last_sent` strictly exceeds the resend delay derived
from `rtt_resend_factor` times the current RTT estimate; an entry failing
this condition contributes nothing to `messages_to_send` in that pass,
and an entry passing it (and not already queued) is enqueued. -/
theorem claim_C3 (s : ReliableSender ℕ)
    (hkeys : (s.unacked_messages.map Prod.fst).Nodup)
    (mid : ℕ) (u : UnackedMessage ℕ)
    (hmem : (mid, u) ∈ s.unacked_messages) :
    (ReliableSender.shouldSend s.current_time s.resendDelay u = true ↔
      (u.last_sent = none ∨
        ∃ t, u.last_sent = some t ∧ s.current_time - t > s.resendDelay)) ∧
    s.collect_messages_to_send.messages_to_send =
      s.messages_to_send ++ s.newlyEnqueued ∧
    (ReliableSender.shouldSend s.current_time s.resendDelay u = false →
      ∀ m ∈ s.newlyEnqueued, m.id ≠ some mid) ∧
    (ReliableSender.shouldSend s.current_time s.resendDelay u = true →
      mid ∉ s.message_ids_to_send →
      { u.message with id := some mid } ∈ s.newlyEnqueued) := by
  refine ⟨?_, ?_, ?_, ?_⟩
  · cases hl : u.last_sent with
    | none => simp [ReliableSender.shouldSend, hl]
    | some t => simp [ReliableSender.shouldSend, hl]
  · simp [ReliableSender.collect_messages_to_send,
      ReliableSender.collectGo_eq _ _ _ _ hkeys, ReliableSender.newlyEnqueued]
  · intro hs m hm
    simp only [ReliableSender.newlyEnqueued, List.mem_map] at hm
    obtain ⟨p, hp, hpm⟩ := hm
    simp only [ReliableSender.pushedEntries, List.mem_filter] at hp
    obtain ⟨hpl, hpcond⟩ := hp
    intro hid
    have hid2 : m.id = some p.1 := by rw [← hpm]
    have hp1 : p.1 = mid := by
      rw [hid2] at hid
      exact Option.some.inj hid
    have hval : p.2 = u := by
      apply nodupKeys_val_eq hkeys _ hmem
      rw [← hp1]
      exact hpl
    have : ReliableSender.shouldSend s.current_time s.resendDelay p.2 = true := by
      simp only [Bool.and_eq_true] at hpcond
      exact hpcond.1
    rw [hval, hs] at this
    cases this
  · intro hs hnotin
    simp only [ReliableSender.newlyEnqueued, List.mem_map]
    refine ⟨(mid, u), ?_, rfl⟩
    simp only [ReliableSender.pushedEntries, List.mem_filter]
    exact ⟨hmem, by simp [hs, hnotin]⟩

def uW3 : UnackedMessage ℕ := ⟨⟨none, 7⟩, none⟩

def sW3 : ReliableSender ℕ :=
  { reliable_settings := ⟨3/2⟩
    unacked_messages := [(0, uW3)]
    next_send_message_id := 1
    messages_to_send := []
    message_ids_to_send := ∅
    current_rtt_millis := 100
    current_time := 0 }

theorem claim_C3_witness :
    ((sW3.unacked_messages.map Prod.fst).Nodup ∧
      (0, uW3) ∈ sW3.unacked_messages) ∧
    ((ReliableSender.shouldSend sW3.current_time sW3.resendDelay uW3 = true ↔
       (uW3.last_sent = none ∨
         ∃ t, uW3.last_sent = some t ∧
           sW3.current_time - t > sW3.resendDelay)) ∧
     sW3.collect_messages_to_send.messages_to_send =
       sW3.messages_to_send ++ sW3.newlyEnqueued ∧
     (ReliableSender.shouldSend sW3.current_time sW3.resendDelay uW3 = false →
       ∀ m ∈ sW3.newlyEnqueued, m.id ≠ some 0) ∧
     (ReliableSender.shouldSend sW3.current_time sW3.resendDelay uW3 = true →
       0 ∉ sW3.message_ids_to_send →
       { uW3.message with id := some 0 } ∈ sW3.newlyEnqueued)) :=
  ⟨⟨by decide, by decide⟩, claim_C3 sW3 (by decide) 0 uW3 (by decide)⟩

/-- Claim C5: acknowledging a MessageId on a ReliableSender is
idempotent: after one `notify_message_delivered` (or
`process_message_ack`) with id m, `unacked_messages` has no entry for m,
and a second call with the same id leaves the whole sender state
unchanged. -/
theorem claim_C5 (s : ReliableSender ℕ) (mid : ℕ) :
    lookupA mid (s.notify_message_delivered mid).unacked_messages = none ∧
    (s.notify_message_delivered mid).notify_message_delivered mid =
      s.notify_message_delivered mid ∧
    lookupA mid (s.process_message_ack mid).unacked_messages = none ∧
    (s.process_message_ack mid).process_message_ack mid =
      s.process_message_ack mid := by
  refine ⟨?_, ?_, ?_, ?_⟩
  · simp [ReliableSender.notify_message_delivered, lookupA_eraseKey_self]
  · simp [ReliableSender.notify_message_delivered, eraseKey_idem]
  · by_cases h : containsKey mid s.unacked_messages = true
    · simp [ReliableSender.process_message_ack, h, lookupA_eraseKey_self]
    · have h0 : lookupA mid s.unacked_messages = none := by
        cases hl : lookupA mid s.unacked_messages with
        | none => rfl
        | some v =>
          exfalso
          apply h
          rw [containsKey_isSome, hl]
          rfl
      simp [ReliableSender.process_message_ack, h, h0]
  · by_cases h : containsKey mid s.unacked_messages = true
    · simp [ReliableSender.process_message_ack, h, containsKey_eraseKey_self]
    · simp [ReliableSender.process_message_ack, h]

/-- Claim C7: in unified mode sync is bypassed: `unified_sync_init` sets
`synced = true` and `interpolation_time` to the current shared time minus
the interpolation delay, and every `unified_sync_update`, including the
first one after initialization, advances `interpolation_time` by exactly
the time manager delta. -/
theorem claim_C7 (sm sm2 : SyncManager) (t d delta delta2 : ℤ) :
    (unified_sync_init t d sm).synced = true ∧
    (unified_sync_init t d sm).interpolation_time = t - d ∧
    (unified_sync_update delta2 sm2).interpolation_time =
      sm2.interpolation_time + delta2 ∧
    (unified_sync_update delta (unified_sync_init t d sm)).interpolation_time =
      t - d + delta :=
  ⟨rfl, rfl, rfl, rfl⟩

theorem foldl_buffer_send_queue {P : Type} (msgs : List (MessageContainer P))
    (s : ReliableSender P) :
    (msgs.foldl ReliableSender.buffer_send s).messages_to_send =
      s.messages_to_send := by
  induction msgs generalizing s with
  | nil => rfl
  | cons m rest ih =>
    simp only [List.foldl_cons]
    rw [ih]
    rfl

/-- Claim C10: `buffer_send` alone never makes the sender ready to send:
after any sequence of `buffer_send` calls with no
`collect_messages_to_send`, `has_messages_to_send` is still false, since
`buffer_send` only inserts into `unacked_messages` under the current
`next_send_message_id` (incremented by one, wrapping) and leaves
`messages_to_send` untouched. -/
theorem claim_C10 (s : ReliableSender ℕ) (msgs : List (MessageContainer ℕ))
    (h : s.has_messages_to_send = false) :
    (msgs.foldl ReliableSender.buffer_send s).has_messages_to_send = false ∧
    ∀ m : MessageContainer ℕ,
      (s.buffer_send m).next_send_message_id =
        (s.next_send_message_id + 1) % 65536 ∧
      lookupA s.next_send_message_id (s.buffer_send m).unacked_messages =
        some ⟨m, none⟩ ∧
      (s.buffer_send m).messages_to_send = s.messages_to_send := by
  refine ⟨?_, ?_⟩
  · rw [ReliableSender.has_messages_to_send, foldl_buffer_send_queue]
    exact h
  · intro m
    refine ⟨rfl, ?_, rfl⟩
    exact lookupA_insertSorted_self _ _ _

def sW10 : ReliableSender ℕ := ReliableSender.new ℕ ⟨3/2⟩ 0

theorem claim_C10_witness :
    sW10.has_messages_to_send = false ∧
    (([⟨none, 1⟩, ⟨none, 2⟩] :
        List (MessageContainer ℕ)).foldl ReliableSender.buffer_send
          sW10).has_messages_to_send = false ∧
    ∀ m : MessageContainer ℕ,
      (sW10.buffer_send m).next_send_message_id =
        (sW10.next_send_message_id + 1) % 65536 ∧
      lookupA sW10.next_send_message_id
          (sW10.buffer_send m).unacked_messages = some ⟨m, none⟩ ∧
      (sW10.buffer_send m).messages_to_send = sW10.messages_to_send :=
  ⟨by decide,
   claim_C10 sW10 [⟨none, 1⟩, ⟨none, 2⟩] (by decide)⟩

/-- Distinctness of the `BTreeMap` keys of `unacked_messages` (holds for
any map; carried as an explicit hypothesis on the list model). -/
def ReliableSender.keysNodup (s : ReliableSender ℕ) : Prop :=
  (s.unacked_messages.map Prod.fst).Nodup

/-- Queue well-formedness maintained between `collect_messages_to_send`
passes: no duplicate MessageId in `messages_to_send`, and every queued id
is recorded in `message_ids_to_send`. -/
def ReliableSender.QueueInv (s : ReliableSender ℕ) : Prop :=
  (s.messages_to_send.filterMap MessageContainer.id).Nodup ∧
  ∀ m ∈ s.messages_to_send, ∀ mid, m.id = some mid →
    mid ∈ s.message_ids_to_send

theorem map_stamped_filterMap (l2 : List (ℕ × UnackedMessage ℕ)) :
    (l2.map (fun p =>
        ({ p.2.message with id := some p.1 } : MessageContainer ℕ))).filterMap
      MessageContainer.id = l2.map Prod.fst := by
  induction l2 with
  | nil => rfl
  | cons p r ih => simp [List.filterMap_cons, ih]

theorem pushedEntries_sublist {now delay : ℕ} {ids : Finset ℕ}
    (l : List (ℕ × UnackedMessage ℕ)) :
    (ReliableSender.pushedEntries now delay ids l).Sublist l :=
  List.filter_sublist l

theorem pushedEntries_key_notin {now delay : ℕ} {ids : Finset ℕ}
    {l : List (ℕ × UnackedMessage ℕ)} {k : ℕ}
    (h : k ∈ (ReliableSender.pushedEntries now delay ids l).map Prod.fst) :
    k ∉ ids := by
  simp only [List.mem_map] at h
  obtain ⟨p, hp, hpk⟩ := h
  simp only [ReliableSender.pushedEntries, List.mem_filter,
    Bool.and_eq_true, decide_eq_true_eq] at hp
  rw [← hpk]
  exact hp.2.2

theorem collect_preserves (s : ReliableSender ℕ)
    (hk : ReliableSender.keysNodup s) (hq : ReliableSender.QueueInv s) :
    ReliableSender.keysNodup s.collect_messages_to_send ∧
    ReliableSender.QueueInv s.collect_messages_to_send := by
  have hgo := ReliableSender.collectGo_eq s.current_time s.resendDelay
      s.unacked_messages s.message_ids_to_send hk
  refine ⟨?_, ?_, ?_⟩
  · show ((s.collect_messages_to_send.unacked_messages).map Prod.fst).Nodup
    simp only [ReliableSender.collect_messages_to_send, hgo]
    simpa [List.map_map, Function.comp] using hk
  · show ((s.collect_messages_to_send.messages_to_send).filterMap
      MessageContainer.id).Nodup
    simp only [ReliableSender.collect_messages_to_send, hgo]
    rw [List.filterMap_append, map_stamped_filterMap, List.nodup_append]
    refine ⟨hq.1, ?_, ?_⟩
    · exact hk.sublist ((pushedEntries_sublist _).map Prod.fst)
    · intro a ha
      have hain : a ∈ s.message_ids_to_send := by
        simp only [List.mem_filterMap] at ha
        obtain ⟨m, hm, hmid⟩ := ha
        exact hq.2 m hm a hmid
      intro hb
      exact pushedEntries_key_notin hb hain
  · show ∀ m ∈ s.collect_messages_to_send.messages_to_send, ∀ mid,
      m.id = some mid → mid ∈ s.collect_messages_to_send.message_ids_to_send
    simp only [ReliableSender.collect_messages_to_send, hgo]
    intro m hm mid hmid
    rw [List.mem_append] at hm
    rcases hm with hm | hm
    · exact Finset.mem_union_left _ (hq.2 m hm mid hmid)
    · apply Finset.mem_union_right
      simp only [List.mem_map] at hm
      obtain ⟨p, hp, hpm⟩ := hm
      have : m.id = some p.1 := by rw [← hpm]
      rw [this] at hmid
      rw [List.mem_toFinset, ← Option.some.inj hmid]
      exact List.mem_map_of_mem Prod.fst hp

theorem collect_iter_inv (s : ReliableSender ℕ)
    (hk : ReliableSender.keysNodup s) (hq : ReliableSender.QueueInv s)
    (n : ℕ) :
    ReliableSender.keysNodup
        (ReliableSender.collect_messages_to_send^[n] s) ∧
    ReliableSender.QueueInv
        (ReliableSender.collect_messages_to_send^[n] s) := by
  induction n with
  | zero => exact ⟨hk, hq⟩
  | succ n ih =>
    rw [Function.iterate_succ_apply']
    exact collect_preserves _ ih.1 ih.2

/-- Claim C4: repeated `collect_messages_to_send` with no intervening
`send_packet` never duplicates a message in `messages_to_send`: a message
already recorded in `message_ids_to_send` is never pushed a second time,
so after any number of passes each MessageId occurs at most once in the
queue. -/
theorem claim_C4 (s : ReliableSender ℕ) (n : ℕ)
    (hk : ReliableSender.keysNodup s) (hq : ReliableSender.QueueInv s) :
    ReliableSender.QueueInv
        (ReliableSender.collect_messages_to_send^[n] s) ∧
    (((ReliableSender.collect_messages_to_send^[n] s).messages_to_send.filterMap
        MessageContainer.id).Nodup) := by
  have h := collect_iter_inv s hk hq n
  exact ⟨h.2, h.2.1⟩

def sW4 : ReliableSender ℕ :=
  { reliable_settings := ⟨3/2⟩
    unacked_messages := [(0, ⟨⟨none, 7⟩, none⟩), (1, ⟨⟨none, 8⟩, none⟩)]
    next_send_message_id := 2
    messages_to_send := []
    message_ids_to_send := ∅
    current_rtt_millis := 100
    current_time := 0 }

theorem claim_C4_witness :
    (ReliableSender.keysNodup sW4 ∧ ReliableSender.QueueInv sW4) ∧
    (ReliableSender.QueueInv
        (ReliableSender.collect_messages_to_send^[2] sW4) ∧
     (((ReliableSender.collect_messages_to_send^[2] sW4).messages_to_send.filterMap
        MessageContainer.id).Nodup)) :=
  ⟨⟨by unfold ReliableSender.keysNodup; decide,
    by simp [ReliableSender.QueueInv, sW4]⟩,
   claim_C4 sW4 2 (by unfold ReliableSender.keysNodup; decide)
     (by simp [ReliableSender.QueueInv, sW4])⟩

theorem foldl_erase_mem (ll : List ℕ) (t : Finset ℕ) (k : ℕ) :
    k ∈ ll.foldl Finset.erase t ↔ (k ∈ t ∧ k ∉ ll) := by
  induction ll generalizing t with
  | nil => simp
  | cons a rest ih =>
    simp only [List.foldl_cons, ih, Finset.mem_erase, List.mem_cons]
    constructor
    · rintro ⟨⟨hka, hkt⟩, hkr⟩
      exact ⟨hkt, by rintro (h | h); exact hka h; exact hkr h⟩
    · rintro ⟨hkt, hkar⟩
      refine ⟨⟨fun h => hkar (Or.inl h), hkt⟩, fun h => hkar (Or.inr h)⟩

/-- Claim C1 (amended): `send_packet` removes each successfully packed
MessageId from `message_ids_to_send` and keeps the unpacked remainder in
`messages_to_send`, but it never touches `unacked_messages`, so no
`last_sent` field changes at `send_packet` time; instead,
`collect_messages_to_send` already set `last_sent` to the current time
for every message it enqueued, whether or not that message is later
packed. -/
theorem claim_C1_amended
    (pack : List (MessageContainer ℕ) → List (MessageContainer ℕ) × List ℕ)
    (s : ReliableSender ℕ) (hk : (s.unacked_messages.map Prod.fst).Nodup) :
    (ReliableSender.send_packet pack s).unacked_messages =
      s.unacked_messages ∧
    (ReliableSender.send_packet pack s).messages_to_send =
      (pack s.messages_to_send).1 ∧
    (∀ k, k ∈ (ReliableSender.send_packet pack s).message_ids_to_send ↔
      (k ∈ s.message_ids_to_send ∧ k ∉ (pack s.messages_to_send).2)) ∧
    ∀ m ∈ s.newlyEnqueued, ∃ mid, m.id = some mid ∧
      lookupA mid s.collect_messages_to_send.unacked_messages =
        some ⟨m, some s.current_time⟩ := by
  refine ⟨rfl, rfl, ?_, ?_⟩
  · intro k
    exact foldl_erase_mem _ _ _
  · intro m hm
    simp only [ReliableSender.newlyEnqueued, List.mem_map] at hm
    obtain ⟨p, hp, hpm⟩ := hm
    have hpl : p ∈ s.unacked_messages := (pushedEntries_sublist _).mem hp
    have hpcond : ReliableSender.shouldSend s.current_time s.resendDelay p.2 =
        true ∧ p.1 ∉ s.message_ids_to_send := by
      simp only [ReliableSender.pushedEntries, List.mem_filter,
        Bool.and_eq_true, decide_eq_true_eq] at hp
      exact ⟨hp.2.1, hp.2.2⟩
    refine ⟨p.1, by rw [← hpm], ?_⟩
    have hgo := ReliableSender.collectGo_eq s.current_time s.resendDelay
        s.unacked_messages s.message_ids_to_send hk
    simp only [ReliableSender.collect_messages_to_send, hgo]
    have hpl2 : (p.1, p.2) ∈ s.unacked_messages := by
      rw [Prod.mk.eta]; exact hpl
    rw [lookupA_map_entry
      (ReliableSender.transformVal s.current_time s.resendDelay
        s.message_ids_to_send) hk hpl2]
    simp only [ReliableSender.transformVal, hpcond.1, if_true,
      hpcond.2, if_neg hpcond.2]
    rw [← hpm]
    simp [hpcond.1]

def packW1 : List (MessageContainer ℕ) →
    List (MessageContainer ℕ) × List ℕ :=
  fun q => ([], q.filterMap MessageContainer.id)

def sW1 : ReliableSender ℕ :=
  { reliable_settings := ⟨3/2⟩
    unacked_messages := [(0, ⟨⟨some 0, 7⟩, some 5⟩)]
    next_send_message_id := 1
    messages_to_send := [⟨some 0, 7⟩]
    message_ids_to_send := {0}
    current_rtt_millis := 100
    current_time := 10 }

def sW1b : ReliableSender ℕ :=
  { reliable_settings := ⟨3/2⟩
    unacked_messages := [(0, ⟨⟨none, 7⟩, none⟩)]
    next_send_message_id := 1
    messages_to_send := []
    message_ids_to_send := ∅
    current_rtt_millis := 100
    current_time := 5 }

/-- Counterexample to claim C1 as stated: at `sW1`, `send_packet` reports
message id 0 as packed, yet the entry keeps `last_sent = some 5` while
the current time is 10; and at `sW1b`, a `collect_messages_to_send` pass
with no packing at all already sets `last_sent` to the current time. -/
theorem claim_C1_counterexample :
    0 ∈ (packW1 sW1.messages_to_send).2 ∧
    lookupA 0 (ReliableSender.send_packet packW1 sW1).unacked_messages =
      some ⟨⟨some 0, 7⟩, some 5⟩ ∧
    sW1.current_time = 10 ∧
    (some 5 : Option ℕ) ≠ some 10 ∧
    lookupA 0 sW1b.collect_messages_to_send.unacked_messages =
      some ⟨⟨some 0, 7⟩, some 5⟩ := by
  refine ⟨by decide, by decide, by decide, by decide, by decide⟩

theorem claim_C1_witness :
    (sW1.unacked_messages.map Prod.fst).Nodup ∧
    ((ReliableSender.send_packet packW1 sW1).unacked_messages =
        sW1.unacked_messages ∧
     (ReliableSender.send_packet packW1 sW1).messages_to_send =
        (packW1 sW1.messages_to_send).1 ∧
     (∀ k, k ∈ (ReliableSender.send_packet packW1 sW1).message_ids_to_send ↔
        (k ∈ sW1.message_ids_to_send ∧
          k ∉ (packW1 sW1.messages_to_send).2)) ∧
     ∀ m ∈ sW1.newlyEnqueued, ∃ mid, m.id = some mid ∧
        lookupA mid sW1.collect_messages_to_send.unacked_messages =
          some ⟨m, some sW1.current_time⟩) :=
  ⟨by decide, claim_C1_amended packW1 sW1 (by decide)⟩

theorem recvPacketsGo_err (q : List (ℕ × ℕ)) (conns : List (ℕ × Connection)) :
    ((Server.recvPacketsGo q conns).2.2 = none ↔
      ∀ e ∈ q, (lookupA e.2 conns).isSome = true) ∧
    ∀ err, (Server.recvPacketsGo q conns).2.2 = some err →
      err = "client not found" := by
  induction q generalizing conns with
  | nil => simp [Server.recvPacketsGo]
  | cons e rest ih =>
    rcases e with ⟨pkt, cid⟩
    cases hl : lookupA cid conns with
    | none =>
      simp only [Server.recvPacketsGo, hl]
      constructor
      · constructor
        · intro hcontra
          cases hcontra
        · intro hall
          have := hall (pkt, cid) (List.mem_cons_self _ _)
          rw [hl] at this
          cases this
      · intro err herr
        exact (Option.some.inj herr).symm
    | some c =>
      simp only [Server.recvPacketsGo, hl]
      have ihh := ih (updateA cid (Connection.recvPacket pkt) conns)
      constructor
      · rw [ihh.1]
        constructor
        · intro h e he
          rcases List.mem_cons.mp he with he1 | he1
          · rw [he1]
            simp [hl]
          · have := h e he1
            rwa [lookupA_updateA_isSome] at this
        · intro h e he
          rw [lookupA_updateA_isSome]
          exact h e (List.mem_cons_of_mem _ he)
      · exact ihh.2

/-- Claim C2 (amended): `Server::recv_packets` processes queued datagrams
in order; it succeeds exactly when every queued datagram has a source in
`user_connections`, and on the first datagram from an unknown source it
returns the error `client not found` (the only possible error) instead of
dropping that datagram and continuing. -/
theorem claim_C2_amended (s : Server) :
    (s.recv_packets.2 = none ↔
      ∀ e ∈ s.recvQueue, (lookupA e.2 s.user_connections).isSome = true) ∧
    ∀ err, s.recv_packets.2 = some err → err = "client not found" :=
  recvPacketsGo_err s.recvQueue s.user_connections

def connW2 : Connection := ⟨[], [], []⟩

def sW2 : Server :=
  { netcodeClientIds := [1]
    user_connections := [(1, connW2)]
    recvQueue := [(42, 99), (7, 1)] }

/-- Counterexample to claim C2 as stated: client 99 is not in the peer
map, so `recv_packets` returns the error `client not found` instead of
dropping the datagram; the later datagram addressed to the known client 1
is left unprocessed (its connection is unchanged and the datagram stays
queued). -/
theorem claim_C2_counterexample :
    sW2.recv_packets.2 = some "client not found" ∧
    lookupA 1 sW2.recv_packets.1.user_connections = some connW2 ∧
    sW2.recv_packets.1.recvQueue = [(7, 1)] :=
  ⟨rfl, rfl, rfl⟩

def sW2c : Server :=
  { netcodeClientIds := [1]
    user_connections := [(1, connW2)]
    recvQueue := [(7, 1), (8, 1)] }

theorem claim_C2_witness :
    (∀ e ∈ sW2c.recvQueue,
      (lookupA e.2 sW2c.user_connections).isSome = true) ∧
    sW2c.recv_packets.2 = none :=
  ⟨by decide, (claim_C2_amended sW2c).1.mpr (by decide)⟩

theorem entitySpawnGo_spec (e : ℕ) (tids : List ℕ)
    (conns : List (ℕ × Connection)) (hn : tids.Nodup)
    (h : ∀ cid ∈ tids, (lookupA cid conns).isSome = true) :
    ∃ conns2, Server.entitySpawnGo e tids conns = some conns2 ∧
      ∀ cid, lookupA cid conns2 =
        if cid ∈ tids then
          (lookupA cid conns).map (Connection.bufferSpawnEntity e)
        else lookupA cid conns := by
  induction tids generalizing conns with
  | nil =>
    refine ⟨conns, rfl, ?_⟩
    intro cid
    simp
  | cons c0 rest ih =>
    simp only [List.nodup_cons] at hn
    obtain ⟨hc0, hrest⟩ := hn
    have hc0look : (lookupA c0 conns).isSome = true :=
      h c0 (List.mem_cons_self _ _)
    cases hl : lookupA c0 conns with
    | none =>
      rw [hl] at hc0look
      cases hc0look
    | some cc =>
      have hrestlook : ∀ cid ∈ rest,
          (lookupA cid
            (updateA c0 (Connection.bufferSpawnEntity e) conns)).isSome =
            true := by
        intro cid hcid
        rw [lookupA_updateA_isSome]
        exact h cid (List.mem_cons_of_mem _ hcid)
      obtain ⟨conns2, hgo, hchar⟩ := ih _ hrest hrestlook
      refine ⟨conns2, ?_, ?_⟩
      · simp only [Server.entitySpawnGo, hl]
        exact hgo
      · intro cid
        rw [hchar cid]
        by_cases hcid : cid ∈ rest
        · have hne : cid ≠ c0 := fun hh => hc0 (hh ▸ hcid)
          rw [if_pos hcid, if_pos (List.mem_cons_of_mem _ hcid),
            lookupA_updateA_ne _ _ _ _ hne]
        · by_cases hcid0 : cid = c0
          · subst hcid0
            rw [if_neg hcid, if_pos (List.mem_cons_self _ _),
              lookupA_updateA_self]
          · have hnotin : cid ∉ c0 :: rest := by
              rw [List.mem_cons]
              intro hh
              rcases hh with hh | hh
              · exact hcid0 hh
              · exact hcid hh
            rw [if_neg hcid, if_neg hnotin,
              lookupA_updateA_ne _ _ _ _ hcid0]

theorem targetIds_nodup (s : Server) (t : ReplicationTarget)
    (hids : s.netcodeClientIds.Nodup) : (s.targetIds t).Nodup := by
  cases t with
  | All => exact hids
  | AllExcept c => exact hids.filter _
  | Only c => simp [Server.targetIds]

/-- Claim C6: the set of connections into which `entity_spawn` buffers
the spawn message is exactly determined by the replication target: every
connected client id for `All`, every connected client id other than c for
`AllExcept c`, and exactly c for `Only c`; no other connection state
changes.  (Stated under the no-panic precondition that every target id
has a connection, and distinct netcode client ids.) -/
theorem claim_C6 (s : Server) (e : ℕ) (t : ReplicationTarget)
    (hids : s.netcodeClientIds.Nodup)
    (h : ∀ cid ∈ s.targetIds t,
      (lookupA cid s.user_connections).isSome = true) :
    ∃ s2, s.entity_spawn e t = some s2 ∧
      (∀ cid ∈ s.targetIds t, lookupA cid s2.user_connections =
        (lookupA cid s.user_connections).map
          (Connection.bufferSpawnEntity e)) ∧
      (∀ cid, cid ∉ s.targetIds t → lookupA cid s2.user_connections =
        lookupA cid s.user_connections) ∧
      s2.netcodeClientIds = s.netcodeClientIds ∧
      s2.recvQueue = s.recvQueue ∧
      ∀ cid, (cid ∈ s.targetIds t ↔
        match t with
        | .All => cid ∈ s.netcodeClientIds
        | .AllExcept c => cid ∈ s.netcodeClientIds ∧ cid ≠ c
        | .Only c => cid = c) := by
  obtain ⟨conns2, hgo, hchar⟩ := entitySpawnGo_spec e (s.targetIds t)
    s.user_connections (targetIds_nodup s t hids) h
  refine ⟨{ s with user_connections := conns2 }, ?_, ?_, ?_, rfl, rfl, ?_⟩
  · rw [Server.entity_spawn, hgo]
    rfl
  · intro cid hcid
    have := hchar cid
    rw [if_pos hcid] at this
    exact this
  · intro cid hcid
    have := hchar cid
    rw [if_neg hcid] at this
    exact this
  · intro cid
    cases t with
    | All => simp [Server.targetIds]
    | AllExcept c => simp [Server.targetIds, List.mem_filter]
    | Only c => simp [Server.targetIds]

def connW6 : Connection := ⟨[], [], []⟩

def sW6 : Server :=
  { netcodeClientIds := [1, 2]
    user_connections := [(1, connW6), (2, connW6)]
    recvQueue := [] }

theorem claim_C6_witness :
    (sW6.netcodeClientIds.Nodup ∧
      ∀ cid ∈ sW6.targetIds (ReplicationTarget.AllExcept 1),
        (lookupA cid sW6.user_connections).isSome = true) ∧
    (∃ s2, sW6.entity_spawn 5 (ReplicationTarget.AllExcept 1) = some s2 ∧
      (∀ cid ∈ sW6.targetIds (ReplicationTarget.AllExcept 1),
        lookupA cid s2.user_connections =
          (lookupA cid sW6.user_connections).map
            (Connection.bufferSpawnEntity 5)) ∧
      (∀ cid, cid ∉ sW6.targetIds (ReplicationTarget.AllExcept 1) →
        lookupA cid s2.user_connections =
          lookupA cid sW6.user_connections) ∧
      s2.netcodeClientIds = sW6.netcodeClientIds ∧
      s2.recvQueue = sW6.recvQueue ∧
      ∀ cid, (cid ∈ sW6.targetIds (ReplicationTarget.AllExcept 1) ↔
        match ReplicationTarget.AllExcept 1 with
        | .All => cid ∈ sW6.netcodeClientIds
        | .AllExcept c => cid ∈ sW6.netcodeClientIds ∧ cid ≠ c
        | .Only c => cid = c)) :=
  ⟨⟨by decide, by decide⟩,
   claim_C6 sW6 5 (ReplicationTarget.AllExcept 1) (by decide) (by decide)⟩

/-- Claim C8: for a client id with no entry in the peer map,
`Server::read_messages` returns the empty map and leaves the whole server
state unchanged, with no error. -/
theorem claim_C8 (s : Server) (cid : ℕ)
    (h : lookupA cid s.user_connections = none) :
    s.read_messages cid = ([], s) := by
  simp [Server.read_messages, h]

def sW8 : Server :=
  { netcodeClientIds := []
    user_connections := []
    recvQueue := [] }

theorem claim_C8_witness :
    lookupA 3 sW8.user_connections = none ∧
    sW8.read_messages 3 = ([], sW8) :=
  ⟨by decide, claim_C8 sW8 3 (by decide)⟩

theorem entitySpawnGo_isSome (e : ℕ) (tids : List ℕ)
    (conns : List (ℕ × Connection))
    (h : ∀ cid ∈ tids, (lookupA cid conns).isSome = true) :
    (Server.entitySpawnGo e tids conns).isSome = true := by
  induction tids generalizing conns with
  | nil => rfl
  | cons c0 rest ih =>
    have h0 := h c0 (List.mem_cons_self _ _)
    cases hl : lookupA c0 conns with
    | none =>
      rw [hl] at h0
      cases h0
    | some cc =>
      simp only [Server.entitySpawnGo, hl]
      apply ih
      intro cid hcid
      rw [lookupA_updateA_isSome]
      exact h cid (List.mem_cons_of_mem _ hcid)

/-- Claim C9: `Server::entity_spawn` can panic (the `expect` on a missing
target connection, modelled as `none`); under the precondition that every
id from `client_ids()` (and, for target `Only c`, the id c) has an entry
in `user_connections` the panic branch is unreachable, while without the
precondition the call aborts instead of returning an error, as the
concrete second conjunct shows. -/
theorem claim_C9 :
    (∀ (s : Server) (e : ℕ) (t : ReplicationTarget),
      (∀ cid ∈ s.netcodeClientIds,
        (lookupA cid s.user_connections).isSome = true) →
      (∀ c, t = ReplicationTarget.Only c →
        (lookupA c s.user_connections).isSome = true) →
      (s.entity_spawn e t).isSome = true) ∧
    Server.entity_spawn
      { netcodeClientIds := [7], user_connections := [], recvQueue := [] }
      3 ReplicationTarget.All = none := by
  constructor
  · intro s e t hall honly
    have hta : ∀ cid ∈ s.targetIds t,
        (lookupA cid s.user_connections).isSome = true := by
      intro cid hcid
      cases t with
      | All => exact hall cid hcid
      | AllExcept c => exact hall cid (List.mem_of_mem_filter hcid)
      | Only c =>
        have hc : cid = c := by simpa [Server.targetIds] using hcid
        rw [hc]
        exact honly c rfl
    have hgo := entitySpawnGo_isSome e (s.targetIds t) s.user_connections hta
    rw [Server.entity_spawn]
    cases hx : Server.entitySpawnGo e (s.targetIds t) s.user_connections with
    | none =>
      rw [hx] at hgo
      cases hgo
    | some c2 => rfl
  · rfl

def sW9 : Server :=
  { netcodeClientIds := [4]
    user_connections := [(4, ⟨[], [], []⟩)]
    recvQueue := [] }

theorem claim_C9_witness :
    (∀ cid ∈ sW9.netcodeClientIds,
      (lookupA cid sW9.user_connections).isSome = true) ∧
    (sW9.entity_spawn 3 ReplicationTarget.All).isSome = true :=
  ⟨by decide,
   claim_C9.1 sW9 3 ReplicationTarget.All (by decide)
     (fun c h => ReplicationTarget.noConfusion h)⟩
